import Mathlib

/-!
# Verification of the D3 World-of-Bits core (`src/main.ts`)

Shallow embedding of the logical core of the map-overlaid collection /
crafting game: the seeded value generator (`tokenAtCell`), the sparse
override store and its persistence blob (`readCell` / `writeCell`), the
interaction engine (`onCellClick`), and the movement / mode controller
(the `keydown` handler), together with theorems settling the frozen
claims about them.

JavaScript numbers that only ever hold exact small quantities (latitudes,
longitudes, thresholds) are modelled as `ℚ`; token values and grid
indices as `ℤ`.  The pseudo-random `luck` helper (`_luck.ts`) is not part
of the sources, so every definition that consults it is parameterised by
an abstract draw function `String → ℚ`; the spec promises its draws lie
in `[0,1)`.
-/

set_option allowUnsafeReducibility true

attribute [local semireducible] Rat.add Rat.mul Rat.inv Rat.sub Rat.div

namespace WorldOfBits

/-- Gameplay constant `TILE_DEGREES = 1e-4` (`main.ts` line 26). -/
def TILE_DEGREES : ℚ := 1 / 10000

/-- Gameplay constant `INTERACTION_RADIUS = 9` (`main.ts` line 27). -/
def INTERACTION_RADIUS : ℤ := 9

/-- Gameplay constant `TARGET_VALUE = 256` (`main.ts` line 28). -/
def TARGET_VALUE : ℤ := 256

/-- Latitude of `CLASSROOM_LATLNG` (`main.ts` line 19). -/
def CLASSROOM_LAT : ℚ := 36997936938057016 / 1000000000000000

/-- Longitude of `CLASSROOM_LATLNG` (`main.ts` line 19). -/
def CLASSROOM_LNG : ℚ := -12205703507501151 / 100000000000000

/-- JavaScript `Math.round`: rounds half-way cases towards positive
infinity, i.e. `⌊x + 1/2⌋`. -/
def jsRound (q : ℚ) : ℤ := ⌊q + 1 / 2⌋

/-- `latLngToCell` (`main.ts` lines 125-129): convert a geographic
position to integer cell indices by scaling the offset from the
classroom anchor and rounding each axis. -/
def latLngToCell (lat lng : ℚ) : ℤ × ℤ :=
  (jsRound ((lat - CLASSROOM_LAT) / TILE_DEGREES),
   jsRound ((lng - CLASSROOM_LNG) / TILE_DEGREES))

/-- The decimal digit characters used when rendering numbers. -/
def digitChar : ℕ → Char
  | 0 => '0'
  | 1 => '1'
  | 2 => '2'
  | 3 => '3'
  | 4 => '4'
  | 5 => '5'
  | 6 => '6'
  | 7 => '7'
  | 8 => '8'
  | _ => '9'

/-- Worker for `natDigits`, structurally recursive on a fuel argument
so the kernel can evaluate it; the division chain divides by ten each
round, so fuel `n` can never run out. -/
def natDigitsAux : ℕ → ℕ → List Char → List Char
  | 0, n, acc => digitChar n :: acc
  | fuel + 1, n, acc =>
      if n < 10 then digitChar n :: acc
      else natDigitsAux fuel (n / 10) (digitChar (n % 10) :: acc)

/-- Decimal digit list of a natural number, most significant first
(the rendering JavaScript applies to integral numbers). -/
def natDigits (n : ℕ) : List Char := natDigitsAux n n []

/-- Decimal character list of an integer, `'-'`-prefixed when negative
(JavaScript's rendering of an integral `number`). -/
def intChars (z : ℤ) : List Char :=
  if z < 0 then '-' :: natDigits (-z).toNat else natDigits z.toNat

/-- `cellId` (`main.ts` lines 94-96): the canonical string key
`` `${i},${j}` `` of a cell. -/
def cellId (i j : ℤ) : String :=
  String.mk (intChars i ++ ',' :: intChars j)

/-- The ordered base-level list `[1, 2, 4, 8]` (`main.ts` line 101). -/
def levels : List ℤ := [1, 2, 4, 8]

/-- The salt string `` `${i},${j},spawn` `` fed to `luck` for the spawn
decision (`main.ts` line 99). -/
def spawnSalt (i j : ℤ) : String :=
  String.mk (intChars i ++ ',' :: intChars j ++ ',' :: "spawn".data)

/-- The salt string `` `${i},${j},value` `` fed to `luck` for the value
draw (`main.ts` line 102). -/
def valueSalt (i j : ℤ) : String :=
  String.mk (intChars i ++ ',' :: intChars j ++ ',' :: "value".data)

/-- `tokenAtCell` (`main.ts` lines 98-104): the seeded value generator.
Returns `none` when the spawn draw exceeds `0.15`; otherwise indexes
`levels` at `⌊draw * 4⌋` (an out-of-range index yields JavaScript
`undefined`, modelled as `none`). -/
def tokenAtCell (luck : String → ℚ) (i j : ℤ) : Option ℤ :=
  if luck (spawnSalt i j) > 15 / 100 then none
  else
    let pick : ℤ := ⌊luck (valueSalt i j) * (levels.length : ℚ)⌋
    if 0 ≤ pick ∧ pick < (levels.length : ℤ) then levels.get? pick.toNat
    else none

/-- The override store: the JavaScript object `overrides` keyed by cell
id strings, an entry being `null` (explicitly empty) or a token value.
Modelled as an insertion-ordered association list with unique keys. -/
abbrev Overrides := List (String × Option ℤ)

/-- JavaScript object update `overrides[id] = val`: replace the entry in
place if the key is present, otherwise append it. -/
def storeSet : Overrides → String → Option ℤ → Overrides
  | [], k, v => [(k, v)]
  | (k', v') :: rest, k, v =>
      if k' = k then (k, v) :: rest else (k', v') :: storeSet rest k v

/-- `readCell` (`main.ts` lines 111-115), the cell resolver: an existing
override entry (even an explicitly empty one) is returned verbatim, and
only in its absence does resolution fall back to generation. -/
def readCell (luck : String → ℚ) (ov : Overrides) (i j : ℤ) : Option ℤ :=
  match ov.lookup (cellId i j) with
  | some e => e
  | none => tokenAtCell luck i j

/-- Modelled from the spec: the value half of one serialized record
entry — `Empty` and `Occupied(v)` "must be distinguishably encoded,
e.g. `null` vs. a number" (§6).  The sources delegate this to the
platform's `JSON.stringify`, which is not part of the repository. -/
def valChars : Option ℤ → List Char
  | none => "null".data
  | some z => intChars z

/-- Modelled from the spec: one serialized record entry
`"key":value`. -/
def entryChars (e : String × Option ℤ) : List Char :=
  '"' :: e.1.data ++ '"' :: ':' :: valChars e.2

/-- Modelled from the spec: the comma-separated entry bodies of the
serialized record. -/
def entriesChars : Overrides → List Char
  | [] => []
  | [e] => entryChars e
  | e :: rest => entryChars e ++ ',' :: entriesChars rest

/-- Modelled from the spec: the Override Store "serializes its entire
content as a single structured blob (a record of coordinate-key →
Override Entry)" (§6); this is the brace-delimited record the sources
obtain from `JSON.stringify(overrides)` (`main.ts` line 118). -/
def stringifyOverrides (ov : Overrides) : String :=
  String.mk ('\x7b' :: entriesChars ov ++ ['\x7d'])

/-- Numeric value of a list of decimal digit characters, most
significant first. -/
def digitsVal (ds : List Char) : ℕ :=
  ds.foldl (fun a c => a * 10 + (c.toNat - 48)) 0

/-- Modelled from the spec: deserialization of one record value — a
`null` keyword or an optionally-signed decimal numeral. -/
def parseVal : List Char → Option (Option ℤ × List Char)
  | [] => none
  | c :: cs =>
      if c = 'n' then
        if cs.take 3 = ['u', 'l', 'l'] then some (none, cs.drop 3) else none
      else if c = '-' then
        let ds := cs.takeWhile Char.isDigit
        if ds.isEmpty then none
        else some (some (-(digitsVal ds : ℤ)), cs.dropWhile Char.isDigit)
      else
        let ds := (c :: cs).takeWhile Char.isDigit
        if ds.isEmpty then none
        else some (some (digitsVal ds : ℤ), (c :: cs).dropWhile Char.isDigit)

/-- Whether a character is not the double quote that ends a serialized
key. -/
def notQuote (x : Char) : Bool := x ≠ '"'

/-- Modelled from the spec: deserialization of one `"key":value`
record entry, returning the entry and the unconsumed input. -/
def parseEntry : List Char → Option ((String × Option ℤ) × List Char)
  | [] => none
  | c :: rest =>
      if c = '"' then
        let k := rest.takeWhile notQuote
        let r := rest.dropWhile notQuote
        if r.take 2 = ['"', ':'] then
          (parseVal (r.drop 2)).map fun p => ((String.mk k, p.1), p.2)
        else none
      else none

/-- Modelled from the spec: deserialization of the entry list up to the
closing brace, fuelled by the remaining input length. -/
def parseEntries : ℕ → List Char → Option Overrides
  | 0, _ => none
  | fuel + 1, cs =>
      if cs = ['\x7d'] then some []
      else
        (parseEntry cs).bind fun er =>
          if er.2 = ['\x7d'] then some [er.1]
          else if er.2.head? = some ',' then
            (parseEntries fuel er.2.tail).map (er.1 :: ·)
          else none

/-- Modelled from the spec: `loadAll` deserialization of the persisted
blob back into an override mapping (the sources delegate this to the
platform's `JSON.parse`, `main.ts` line 107). -/
def parseOverrides (s : String) : Option Overrides :=
  if s.data.head? = some '\x7b' then
    parseEntries (s.data.tail.length + 1) s.data.tail
  else none

/-- The portion of the program state the interaction engine touches:
the override store, its persisted blob (the `localStorage` value under
key `"overrides"`), the player's geographic position and held token
(`main.ts` lines 50-53, 107-119). -/
structure GameState where
  overrides : Overrides
  storage : String
  playerLat : ℚ
  playerLng : ℚ
  holding : Option ℤ
  deriving Repr, DecidableEq

/-- `writeCell` (`main.ts` lines 116-119): update the override entry and
synchronously persist the whole serialized store. -/
def writeCell (s : GameState) (i j : ℤ) (val : Option ℤ) : GameState :=
  let ov := storeSet s.overrides (cellId i j) val
  { s with overrides := ov, storage := stringifyOverrides ov }

/-- `distanceFromPlayer` (`main.ts` lines 173-176): Chebyshev distance
between a cell and the player's current cell. -/
def distanceFromPlayer (s : GameState) (i j : ℤ) : ℤ :=
  let p := latLngToCell s.playerLat s.playerLng
  max (i - p.1).natAbs (j - p.2).natAbs

/-- The user-visible result of a click, one constructor per alert (or
silence) `onCellClick` can produce. -/
inductive Outcome where
  | pickedUp (v : ℤ)
  | crafted (v : ℤ)
  | rejectedTooFar
  | rejectedMismatch
  | rejectedEmpty
  deriving Repr, DecidableEq

/-- A click's outcome together with the win side-signal (the
`"You win!"` alert, `main.ts` line 196). -/
structure ClickResult where
  outcome : Outcome
  won : Bool
  deriving Repr, DecidableEq

/-- `onCellClick` (`main.ts` lines 178-202): the interaction engine,
acting on the cell value `val` the renderer captured for the clicked
rectangle.  An in-range empty-handed click picks up a truthy value; an
in-range click while holding `h` crafts `2*h` exactly when the cell
value equals `h` and signals a win when the crafted value reaches
`TARGET_VALUE`. -/
def onCellClick (i j : ℤ) (val : Option ℤ) (s : GameState) :
    GameState × ClickResult :=
  if distanceFromPlayer s i j > INTERACTION_RADIUS then
    (s, ⟨Outcome.rejectedTooFar, false⟩)
  else
    match s.holding with
    | none =>
        match val with
        | some v =>
            if v = 0 then (s, ⟨Outcome.rejectedEmpty, false⟩)
            else ({ writeCell s i j none with holding := some v },
                  ⟨Outcome.pickedUp v, false⟩)
        | none => (s, ⟨Outcome.rejectedEmpty, false⟩)
    | some h =>
        if val = some h then
          let newVal := h * 2
          ({ writeCell s i j (some newVal) with holding := none },
           ⟨Outcome.crafted newVal, decide (newVal ≥ TARGET_VALUE)⟩)
        else (s, ⟨Outcome.rejectedMismatch, false⟩)

/-- The view-vs-player mode flag (`main.ts` lines 69-70): `player` is
the spec's PlayerCentered mode, `map` its FreeView mode. -/
inductive Mode where
  | player
  | map
  deriving Repr, DecidableEq

/-- The rectangular cell range `renderGrid` derives from the current
map bounds (`main.ts` lines 144-151); supplied by the external map
surface. -/
structure Bounds where
  minI : ℤ
  maxI : ℤ
  minJ : ℤ
  maxJ : ℤ
  deriving Repr, DecidableEq

/-- The integers from `lo` to `hi` inclusive, in increasing order. -/
def intRange (lo hi : ℤ) : List ℤ :=
  (List.range (hi + 1 - lo).toNat).map (fun n => lo + (n : ℤ))

/-- The row-major coordinate enumeration of `renderGrid`'s double loop
(`main.ts` lines 153-154). -/
def coordsIn (b : Bounds) : List (ℤ × ℤ) :=
  (intRange b.minI b.maxI).flatMap fun i =>
    (intRange b.minJ b.maxJ).map fun j => (i, j)

/-- The whole interactive system state: the game state, the mode flag,
the current map center (`map.setView` / `map.getCenter`), and the cell
values the last `renderGrid` captured into each rectangle's click
closure (`main.ts` lines 161-166). -/
structure Sys where
  game : GameState
  mode : Mode
  centerLat : ℚ
  centerLng : ℚ
  rendered : List ((ℤ × ℤ) × Option ℤ)
  deriving Repr, DecidableEq

/-- `renderGrid` (`main.ts` lines 138-170) restricted to its logical
effect: rebuild the rendered list, capturing `readCell`'s current answer
for every cell in the visible bounds. -/
def renderGrid (luck : String → ℚ) (ov : Overrides) (b : Bounds) :
    List ((ℤ × ℤ) × Option ℤ) :=
  (coordsIn b).map fun c => (c, readCell luck ov c.1 c.2)

/-- The discrete external events the handlers at `main.ts` lines
178-257 respond to.  Each carries the map bounds the subsequent
`renderGrid` call will observe (the bounds come from the external map
surface). -/
inductive Ev where
  | move (dLat dLng : ℚ) (b : Bounds)
  | toggle (b : Bounds)
  | click (i j : ℤ) (b : Bounds)
  | moveEnd (b : Bounds)
  deriving Repr, DecidableEq

/-- One event step of the system.
* `move` (`main.ts` lines 240-256): in `player` mode the delta moves the
  player and the map recenters on the player; in `map` mode only the map
  center pans.  Both branches re-render.
* `toggle` (`main.ts` lines 213-219): flip the mode; switching into
  `player` mode snaps the view to the player; re-render.
* `click` (`main.ts` lines 166, 178-202): run `onCellClick` with the
  value captured at render time; every branch except the too-far early
  return ends in `renderGrid()`.  A cell with no rendered rectangle
  cannot be clicked.
* `moveEnd` (`main.ts` lines 206-210): re-render only in `map` mode. -/
def step (luck : String → ℚ) (s : Sys) : Ev → Sys
  | Ev.move dLat dLng b =>
      match s.mode with
      | Mode.player =>
          let g := { s.game with
                     playerLat := s.game.playerLat + dLat,
                     playerLng := s.game.playerLng + dLng }
          { s with game := g,
                   centerLat := g.playerLat, centerLng := g.playerLng,
                   rendered := renderGrid luck g.overrides b }
      | Mode.map =>
          { s with centerLat := s.centerLat + dLat,
                   centerLng := s.centerLng + dLng,
                   rendered := renderGrid luck s.game.overrides b }
  | Ev.toggle b =>
      let m := match s.mode with
               | Mode.player => Mode.map
               | Mode.map => Mode.player
      let s' := match m with
                | Mode.player =>
                    { s with mode := m,
                             centerLat := s.game.playerLat,
                             centerLng := s.game.playerLng }
                | Mode.map => { s with mode := m }
      { s' with rendered := renderGrid luck s.game.overrides b }
  | Ev.click i j b =>
      match s.rendered.lookup (i, j) with
      | none => s
      | some val =>
          let (g, r) := onCellClick i j val s.game
          if r.outcome = Outcome.rejectedTooFar then { s with game := g }
          else { s with game := g,
                        rendered := renderGrid luck g.overrides b }
  | Ev.moveEnd b =>
      match s.mode with
      | Mode.map =>
          { s with rendered := renderGrid luck s.game.overrides b }
      | Mode.player => s

/-- The startup state (`main.ts` lines 50-53, 70, 107-109, 260-261):
overrides loaded from the persisted blob, player at the classroom,
empty-handed, `player` mode, view on the player, followed by the initial
`renderGrid`. -/
def initSys (luck : String → ℚ) (ov0 : Overrides) (blob0 : String)
    (b0 : Bounds) : Sys :=
  { game := { overrides := ov0, storage := blob0,
              playerLat := CLASSROOM_LAT, playerLng := CLASSROOM_LNG,
              holding := none },
    mode := Mode.player,
    centerLat := CLASSROOM_LAT, centerLng := CLASSROOM_LNG,
    rendered := renderGrid luck ov0 b0 }

/-- Run a list of events from a state. -/
def runEvents (luck : String → ℚ) (s : Sys) (evs : List Ev) : Sys :=
  evs.foldl (step luck) s

/-- A click processed with the clicked cell freshly resolved at click
time (the behaviour the spec's §4.5 step 2 prescribes). -/
def clickFresh (luck : String → ℚ) (i j : ℤ) (s : GameState) :
    GameState × ClickResult :=
  onCellClick i j (readCell luck s.overrides i j) s

/-- Run a list of clicks with fresh resolution, counting how many times
the win signal fires. -/
def runClicks (luck : String → ℚ) (s : GameState) :
    List (ℤ × ℤ) → GameState × ℕ
  | [] => (s, 0)
  | c :: rest =>
      let (s', r) := clickFresh luck c.1 c.2 s
      let (s'', n) := runClicks luck s' rest
      (s'', (if r.won then 1 else 0) + n)

/-! ## Override store lemmas -/

theorem lookup_storeSet_self (ov : Overrides) (k : String) (v : Option ℤ) :
    (storeSet ov k v).lookup k = some v := by
  induction ov with
  | nil => simp [storeSet, List.lookup]
  | cons e rest ih =>
      obtain ⟨k', v'⟩ := e
      by_cases h : k' = k
      · subst h
        simp [storeSet, List.lookup]
      · rw [storeSet, if_neg h, List.lookup,
          beq_eq_false_iff_ne.mpr (Ne.symm h)]
        exact ih

theorem lookup_storeSet_ne (ov : Overrides) (k k' : String) (v : Option ℤ)
    (h : k ≠ k') : (storeSet ov k v).lookup k' = ov.lookup k' := by
  induction ov with
  | nil =>
      simp [storeSet, List.lookup, beq_eq_false_iff_ne.mpr (Ne.symm h)]
  | cons e rest ih =>
      obtain ⟨k₀, v₀⟩ := e
      by_cases h₀ : k₀ = k
      · subst h₀
        rw [storeSet, if_pos rfl, List.lookup, List.lookup,
          beq_eq_false_iff_ne.mpr (Ne.symm h)]
      · rw [storeSet, if_neg h₀, List.lookup, List.lookup]
        by_cases h₂ : k' = k₀
        · subst h₂
          simp
        · rw [beq_eq_false_iff_ne.mpr h₂]
          exact ih

theorem readCell_writeCell_self (luck : String → ℚ) (s : GameState)
    (i j : ℤ) (v : Option ℤ) :
    readCell luck (writeCell s i j v).overrides i j = v := by
  simp [readCell, writeCell, lookup_storeSet_self]

theorem readCell_writeCell_ne (luck : String → ℚ) (s : GameState)
    (i j i' j' : ℤ) (v : Option ℤ) (h : cellId i' j' ≠ cellId i j) :
    readCell luck (writeCell s i' j' v).overrides i j =
      readCell luck s.overrides i j := by
  simp [readCell, writeCell, lookup_storeSet_ne _ _ _ _ h]

/-! ## C3: override precedence in the cell resolver -/

/-- C3.  An override entry for a coordinate — an explicitly empty one
included — is returned verbatim by `readCell`, and only in absence of an
entry does the resolver fall back to the seeded generator; in
particular, after `set((i,j), Empty)` the resolver answers `Empty` for
`(i,j)` whatever the generator would produce there, and it keeps doing
so across any further writes to other keys. -/
theorem readCell_override_precedence (luck : String → ℚ) (ov : Overrides)
    (i j : ℤ) :
    (∀ e, ov.lookup (cellId i j) = some e → readCell luck ov i j = e)
    ∧ (ov.lookup (cellId i j) = none →
        readCell luck ov i j = tokenAtCell luck i j)
    ∧ (storeSet ov (cellId i j) none).lookup (cellId i j) = some none
    ∧ readCell luck (storeSet ov (cellId i j) none) i j = none
    ∧ (∀ ws : List (ℤ × ℤ × Option ℤ),
        (∀ w ∈ ws, cellId w.1 w.2.1 ≠ cellId i j) →
        readCell luck
          (ws.foldl (fun o w => storeSet o (cellId w.1 w.2.1) w.2.2)
            (storeSet ov (cellId i j) none)) i j = none) := by
  refine ⟨?_, ?_, ?_, ?_, ?_⟩
  · intro e he
    simp [readCell, he]
  · intro he
    simp [readCell, he]
  · exact lookup_storeSet_self ov _ none
  · simp [readCell, lookup_storeSet_self]
  · intro ws hws
    suffices h : ∀ (o : Overrides), readCell luck o i j = none →
        readCell luck
          (ws.foldl (fun o w => storeSet o (cellId w.1 w.2.1) w.2.2) o)
          i j = none by
      exact h _ (by simp [readCell, lookup_storeSet_self])
    induction ws with
    | nil => intro o ho; simpa using ho
    | cons w rest ih =>
        intro o ho
        simp only [List.foldl_cons]
        refine ih (fun w' hw' => hws w' (List.mem_cons_of_mem _ hw')) _ ?_
        have hne := hws w (List.mem_cons_self _ _)
        simp only [readCell, lookup_storeSet_ne _ _ _ _ hne]
        simpa [readCell] using ho

/-- Concrete instantiation of `readCell_override_precedence`: after
explicitly emptying cell `(0,0)` and then writing `4` to cell `(1,1)`,
resolving `(0,0)` still answers `Empty` even though the constant-zero
generator would spawn a token there. -/
theorem readCell_override_precedence_example :
    readCell (fun _ => 0)
      (([((2 : ℤ), (3 : ℤ), (some 4 : Option ℤ))]).foldl
        (fun o w => storeSet o (cellId w.1 w.2.1) w.2.2)
        (storeSet [] (cellId 0 0) none)) 0 0 = none :=
  (readCell_override_precedence (fun _ => 0) [] 0 0).2.2.2.2
    [(2, 3, some 4)] (by decide)

/-! ## C1, C2, C6, C7: the interaction engine on a single click -/

/-- A constant draw function: every cell spawns a level-1 token.  Used
to instantiate witnesses. -/
def luckZero : String → ℚ := fun _ => 0

/-- The startup game state: no overrides, player at the classroom,
empty-handed. -/
def gs0 : GameState :=
  { overrides := [], storage := "", playerLat := CLASSROOM_LAT,
    playerLng := CLASSROOM_LNG, holding := none }

/-- C1.  Within the interaction radius, clicking a cell that resolves to
`Occupied(h)` while holding `h` yields the `Crafted` outcome with value
`2*h`, leaves the player empty-handed, and writes an override under
which the cell thereafter resolves to `Occupied(2*h)`. -/
theorem craft_doubles (luck : String → ℚ) (s : GameState) (i j h : ℤ)
    (hdist : distanceFromPlayer s i j ≤ INTERACTION_RADIUS)
    (hhold : s.holding = some h)
    (hres : readCell luck s.overrides i j = some h) :
    (onCellClick i j (readCell luck s.overrides i j) s).2.outcome =
      Outcome.crafted (2 * h)
    ∧ (onCellClick i j (readCell luck s.overrides i j) s).1.holding = none
    ∧ readCell luck
        (onCellClick i j (readCell luck s.overrides i j) s).1.overrides i j =
      some (2 * h) := by
  rw [hres]
  simp only [onCellClick, if_neg (not_lt.mpr hdist), hhold]
  simp [readCell_writeCell_self, mul_comm]

/-- Concrete instantiation of `craft_doubles`: holding `1` next to a
generated level-1 cell, the click crafts a `2`. -/
theorem craft_doubles_example :
    (onCellClick 0 0 (readCell luckZero gs0.overrides 0 0)
        { gs0 with holding := some 1 }).2.outcome = Outcome.crafted 2
    ∧ (onCellClick 0 0 (readCell luckZero gs0.overrides 0 0)
        { gs0 with holding := some 1 }).1.holding = none
    ∧ readCell luckZero
        (onCellClick 0 0 (readCell luckZero gs0.overrides 0 0)
          { gs0 with holding := some 1 }).1.overrides 0 0 = some 2 :=
  craft_doubles luckZero { gs0 with holding := some 1 } 0 0 1
    (by decide) (by decide) (by decide)

/-- C2.  Within the interaction radius, clicking a cell that resolves to
`Occupied(v)` while empty-handed yields the `PickedUp` outcome with
value `v`, puts `v` in the player's hand, and writes an explicit
`Empty` override under which the cell thereafter resolves to `Empty`.
(`v` is a token value, hence positive — spec §3.) -/
theorem pickup_removes (luck : String → ℚ) (s : GameState) (i j v : ℤ)
    (hdist : distanceFromPlayer s i j ≤ INTERACTION_RADIUS)
    (hhold : s.holding = none)
    (hres : readCell luck s.overrides i j = some v)
    (hv : 0 < v) :
    (onCellClick i j (readCell luck s.overrides i j) s).2.outcome =
      Outcome.pickedUp v
    ∧ (onCellClick i j (readCell luck s.overrides i j) s).1.holding = some v
    ∧ (onCellClick i j (readCell luck s.overrides i j) s).1.overrides.lookup
        (cellId i j) = some none
    ∧ readCell luck
        (onCellClick i j (readCell luck s.overrides i j) s).1.overrides i j =
      none := by
  rw [hres]
  simp only [onCellClick, if_neg (not_lt.mpr hdist), hhold,
    if_neg (show ¬v = 0 by omega)]
  refine ⟨trivial, trivial, ?_, ?_⟩
  · simp [writeCell, lookup_storeSet_self]
  · simp [readCell_writeCell_self]

/-- Concrete instantiation of `pickup_removes`: an empty-handed click on
a generated level-1 cell picks it up and empties the cell. -/
theorem pickup_removes_example :
    (onCellClick 0 0 (readCell luckZero gs0.overrides 0 0) gs0).2.outcome =
      Outcome.pickedUp 1
    ∧ (onCellClick 0 0 (readCell luckZero gs0.overrides 0 0) gs0).1.holding =
      some 1
    ∧ (onCellClick 0 0 (readCell luckZero gs0.overrides 0 0)
        gs0).1.overrides.lookup (cellId 0 0) = some none
    ∧ readCell luckZero
        (onCellClick 0 0 (readCell luckZero gs0.overrides 0 0)
          gs0).1.overrides 0 0 = none :=
  pickup_removes luckZero gs0 0 0 1 (by decide) (by decide) (by decide)
    (by decide)

/-- C6.  A click at Chebyshev distance greater than the interaction
radius from the player's cell is rejected as too far, and nothing
changes: the whole game state — override store, persisted blob and held
token included — is returned exactly as it was, whatever cell value the
click carried. -/
theorem too_far_rejected (s : GameState) (i j : ℤ) (val : Option ℤ)
    (hdist : distanceFromPlayer s i j > INTERACTION_RADIUS) :
    onCellClick i j val s = (s, ⟨Outcome.rejectedTooFar, false⟩)
    ∧ (onCellClick i j val s).1.overrides = s.overrides
    ∧ (onCellClick i j val s).1.storage = s.storage
    ∧ (onCellClick i j val s).1.holding = s.holding := by
  simp [onCellClick, hdist]

/-- Concrete instantiation of `too_far_rejected`: cell `(10, 0)` is at
Chebyshev distance 10 from the player's cell `(0, 0)`, so clicking its
level-1 token is rejected even though an empty-handed pickup would
otherwise apply. -/
theorem too_far_rejected_example :
    onCellClick 10 0 (some 1) gs0 = (gs0, ⟨Outcome.rejectedTooFar, false⟩)
    ∧ (onCellClick 10 0 (some 1) gs0).1.overrides = gs0.overrides
    ∧ (onCellClick 10 0 (some 1) gs0).1.storage = gs0.storage
    ∧ (onCellClick 10 0 (some 1) gs0).1.holding = gs0.holding :=
  too_far_rejected gs0 10 0 (some 1) (by decide)

/-- C7.  Within the interaction radius while holding `h`, a click on a
cell whose resolved value is absent or different from `h` yields the
`RejectedMismatch` outcome and mutates nothing: the returned state is
the input state, so the cell's override entry, its resolved state, and
the held token are all unchanged. -/
theorem mismatch_rejected (luck : String → ℚ) (s : GameState) (i j h : ℤ)
    (hdist : distanceFromPlayer s i j ≤ INTERACTION_RADIUS)
    (hhold : s.holding = some h)
    (hne : readCell luck s.overrides i j ≠ some h) :
    onCellClick i j (readCell luck s.overrides i j) s =
      (s, ⟨Outcome.rejectedMismatch, false⟩)
    ∧ (onCellClick i j (readCell luck s.overrides i j) s).1.overrides.lookup
        (cellId i j) = s.overrides.lookup (cellId i j)
    ∧ readCell luck
        (onCellClick i j (readCell luck s.overrides i j) s).1.overrides i j =
      readCell luck s.overrides i j
    ∧ (onCellClick i j (readCell luck s.overrides i j) s).1.holding =
      s.holding := by
  have hmain : onCellClick i j (readCell luck s.overrides i j) s =
      (s, ⟨Outcome.rejectedMismatch, false⟩) := by
    simp [onCellClick, not_lt.mpr hdist, hhold, hne]
  refine ⟨hmain, ?_, ?_, ?_⟩ <;> rw [hmain]

/-- Concrete instantiation of `mismatch_rejected`: holding `4` over a
generated level-1 cell, the click is rejected and nothing changes. -/
theorem mismatch_rejected_example :
    onCellClick 0 0 (readCell luckZero gs0.overrides 0 0)
        { gs0 with holding := some 4 } =
      ({ gs0 with holding := some 4 }, ⟨Outcome.rejectedMismatch, false⟩)
    ∧ (onCellClick 0 0 (readCell luckZero gs0.overrides 0 0)
        { gs0 with holding := some 4 }).1.overrides.lookup (cellId 0 0) =
      ({ gs0 with holding := some 4 } : GameState).overrides.lookup
        (cellId 0 0)
    ∧ readCell luckZero
        (onCellClick 0 0 (readCell luckZero gs0.overrides 0 0)
          { gs0 with holding := some 4 }).1.overrides 0 0 =
      readCell luckZero ({ gs0 with holding := some 4 } : GameState).overrides
        0 0
    ∧ (onCellClick 0 0 (readCell luckZero gs0.overrides 0 0)
        { gs0 with holding := some 4 }).1.holding =
      ({ gs0 with holding := some 4 } : GameState).holding :=
  mismatch_rejected luckZero { gs0 with holding := some 4 } 0 0 4
    (by decide) (by decide) (by decide)

/-! ## C5: the seeded value generator -/

/-- C5 fails as stated at the threshold: the code spawns whenever the
spawn draw is NOT strictly above `0.15` (`main.ts` line 100 tests
`r > 0.15`), so a draw function returning exactly `0.15` — a value in
`[0,1)` that is not strictly below the threshold — still spawns a
token. -/
theorem tokenAtCell_boundary_counterexample :
    tokenAtCell (fun _ => 15 / 100) 0 0 = some 1
    ∧ ¬((fun _ => (15 : ℚ) / 100) (spawnSalt 0 0) < 15 / 100) := by
  constructor
  · decide
  · exact lt_irrefl _

/-- C5 (amended).  Assuming the deterministic draws lie in `[0,1)`: a
token spawns at `(i,j)` exactly when the spawn draw is at most `0.15`
(the code also spawns on a draw of exactly `0.15`, which is not
strictly below the threshold), and the spawned value is the entry of
the ordered list `[1,2,4,8]` at index `⌊draw₂ * 4⌋`, so every generated
token value lies in `{1,2,4,8}`. -/
theorem tokenAtCell_characterization (luck : String → ℚ) (i j : ℤ)
    (hrange : ∀ s, 0 ≤ luck s ∧ luck s < 1) :
    (15 / 100 < luck (spawnSalt i j) → tokenAtCell luck i j = none)
    ∧ (luck (spawnSalt i j) ≤ 15 / 100 →
        tokenAtCell luck i j =
          levels.get? (⌊luck (valueSalt i j) * (levels.length : ℚ)⌋).toNat
        ∧ ∃ v, tokenAtCell luck i j = some v ∧ v ∈ levels) := by
  constructor
  · intro hgt
    simp [tokenAtCell, hgt]
  · intro hle
    obtain ⟨h0, h1⟩ := hrange (valueSalt i j)
    have hlen : ((levels.length : ℚ)) = 4 := by norm_num [levels]
    have hpick0 : 0 ≤ ⌊luck (valueSalt i j) * (levels.length : ℚ)⌋ := by
      apply Int.le_floor.mpr
      push_cast
      positivity
    have hpick4 : ⌊luck (valueSalt i j) * (levels.length : ℚ)⌋ <
        (levels.length : ℤ) := by
      apply Int.floor_lt.mpr
      rw [hlen]
      push_cast
      nlinarith
    have hcase : tokenAtCell luck i j =
        levels.get? (⌊luck (valueSalt i j) * (levels.length : ℚ)⌋).toNat := by
      simp [tokenAtCell, not_lt.mpr hle, hpick0, hpick4]
    refine ⟨hcase, ?_⟩
    have hlt : (⌊luck (valueSalt i j) * (levels.length : ℚ)⌋).toNat <
        levels.length := by
      omega
    exact ⟨levels.get ⟨_, hlt⟩, by rw [hcase, List.get?_eq_get hlt],
      List.get_mem _ _ _⟩

/-- Concrete instantiation of `tokenAtCell_characterization`: the
constant-zero draw function spawns the level at index 0, a member of
the base-level list. -/
theorem tokenAtCell_characterization_example :
    tokenAtCell luckZero 5 7 =
      levels.get? (⌊luckZero (valueSalt 5 7) * (levels.length : ℚ)⌋).toNat
    ∧ ∃ v, tokenAtCell luckZero 5 7 = some v ∧ v ∈ levels :=
  (tokenAtCell_characterization luckZero 5 7
    (fun _ => by simp [luckZero])).2 (by decide)

/-! ## C9: movement respects the view mode -/

/-- C9.  In FreeView (`map`) mode a movement delta pans only the
independent view center, and any number of repeated moves leaves the
player position exactly unchanged; in PlayerCentered (`player`) mode a
movement delta moves the player, and the effective view center for the
next region query is the player's new position. -/
theorem move_mode_isolation (luck : String → ℚ) (s : Sys)
    (dLat dLng : ℚ) (b : Bounds) (moves : List ((ℚ × ℚ) × Bounds)) :
    (s.mode = Mode.map →
      (step luck s (Ev.move dLat dLng b)).centerLat = s.centerLat + dLat
      ∧ (step luck s (Ev.move dLat dLng b)).centerLng = s.centerLng + dLng
      ∧ (runEvents luck s
          (moves.map fun m => Ev.move m.1.1 m.1.2 m.2)).game.playerLat =
        s.game.playerLat
      ∧ (runEvents luck s
          (moves.map fun m => Ev.move m.1.1 m.1.2 m.2)).game.playerLng =
        s.game.playerLng)
    ∧ (s.mode = Mode.player →
      (step luck s (Ev.move dLat dLng b)).game.playerLat =
        s.game.playerLat + dLat
      ∧ (step luck s (Ev.move dLat dLng b)).game.playerLng =
        s.game.playerLng + dLng
      ∧ (step luck s (Ev.move dLat dLng b)).centerLat =
        s.game.playerLat + dLat
      ∧ (step luck s (Ev.move dLat dLng b)).centerLng =
        s.game.playerLng + dLng) := by
  have key : ∀ (ms : List ((ℚ × ℚ) × Bounds)) (t : Sys),
      t.mode = Mode.map →
      (runEvents luck t
          (ms.map fun m => Ev.move m.1.1 m.1.2 m.2)).game.playerLat =
        t.game.playerLat
      ∧ (runEvents luck t
          (ms.map fun m => Ev.move m.1.1 m.1.2 m.2)).game.playerLng =
        t.game.playerLng := by
    intro ms
    induction ms with
    | nil =>
        intro t _
        exact ⟨rfl, rfl⟩
    | cons m rest ih =>
        intro t ht
        have hstep : step luck t (Ev.move m.1.1 m.1.2 m.2) =
            { t with centerLat := t.centerLat + m.1.1,
                     centerLng := t.centerLng + m.1.2,
                     rendered := renderGrid luck t.game.overrides m.2 } := by
          simp [step, ht]
        have hmode : (step luck t (Ev.move m.1.1 m.1.2 m.2)).mode =
            Mode.map := by
          rw [hstep]
          exact ht
        have := ih (step luck t (Ev.move m.1.1 m.1.2 m.2)) hmode
        simp only [List.map_cons, runEvents, List.foldl_cons] at this ⊢
        rw [this.1, this.2, hstep]
        exact ⟨rfl, rfl⟩
  constructor
  · intro hm
    refine ⟨?_, ?_, (key moves s hm).1, (key moves s hm).2⟩ <;>
      simp [step, hm]
  · intro hm
    refine ⟨?_, ?_, ?_, ?_⟩ <;> simp [step, hm]

/-- Concrete instantiation of `move_mode_isolation`: from the startup
state (PlayerCentered) a move shifts player and view center together;
from the same state toggled to FreeView, two successive moves pan the
view while the player stays at the classroom. -/
theorem move_mode_isolation_example :
    ((step luckZero
        { initSys luckZero [] "" ⟨0, 0, 0, 0⟩ with mode := Mode.map }
        (Ev.move 1 2 ⟨0, 0, 0, 0⟩)).centerLat =
      ({ initSys luckZero [] "" ⟨0, 0, 0, 0⟩ with
          mode := Mode.map } : Sys).centerLat + 1
    ∧ (step luckZero
        { initSys luckZero [] "" ⟨0, 0, 0, 0⟩ with mode := Mode.map }
        (Ev.move 1 2 ⟨0, 0, 0, 0⟩)).centerLng =
      ({ initSys luckZero [] "" ⟨0, 0, 0, 0⟩ with
          mode := Mode.map } : Sys).centerLng + 2
    ∧ (runEvents luckZero
        { initSys luckZero [] "" ⟨0, 0, 0, 0⟩ with mode := Mode.map }
        (([((1, 2), ⟨0, 0, 0, 0⟩), ((3, 4), ⟨0, 0, 0, 0⟩)] :
            List ((ℚ × ℚ) × Bounds)).map
          fun m => Ev.move m.1.1 m.1.2 m.2)).game.playerLat =
      ({ initSys luckZero [] "" ⟨0, 0, 0, 0⟩ with
          mode := Mode.map } : Sys).game.playerLat
    ∧ (runEvents luckZero
        { initSys luckZero [] "" ⟨0, 0, 0, 0⟩ with mode := Mode.map }
        (([((1, 2), ⟨0, 0, 0, 0⟩), ((3, 4), ⟨0, 0, 0, 0⟩)] :
            List ((ℚ × ℚ) × Bounds)).map
          fun m => Ev.move m.1.1 m.1.2 m.2)).game.playerLng =
      ({ initSys luckZero [] "" ⟨0, 0, 0, 0⟩ with
          mode := Mode.map } : Sys).game.playerLng)
    ∧ ((step luckZero (initSys luckZero [] "" ⟨0, 0, 0, 0⟩)
        (Ev.move 1 2 ⟨0, 0, 0, 0⟩)).game.playerLat =
      (initSys luckZero [] "" ⟨0, 0, 0, 0⟩).game.playerLat + 1
    ∧ (step luckZero (initSys luckZero [] "" ⟨0, 0, 0, 0⟩)
        (Ev.move 1 2 ⟨0, 0, 0, 0⟩)).game.playerLng =
      (initSys luckZero [] "" ⟨0, 0, 0, 0⟩).game.playerLng + 2
    ∧ (step luckZero (initSys luckZero [] "" ⟨0, 0, 0, 0⟩)
        (Ev.move 1 2 ⟨0, 0, 0, 0⟩)).centerLat =
      (initSys luckZero [] "" ⟨0, 0, 0, 0⟩).game.playerLat + 1
    ∧ (step luckZero (initSys luckZero [] "" ⟨0, 0, 0, 0⟩)
        (Ev.move 1 2 ⟨0, 0, 0, 0⟩)).centerLng =
      (initSys luckZero [] "" ⟨0, 0, 0, 0⟩).game.playerLng + 2) :=
  ⟨(move_mode_isolation luckZero
      { initSys luckZero [] "" ⟨0, 0, 0, 0⟩ with mode := Mode.map }
      1 2 ⟨0, 0, 0, 0⟩
      [((1, 2), ⟨0, 0, 0, 0⟩), ((3, 4), ⟨0, 0, 0, 0⟩)]).1 rfl,
   (move_mode_isolation luckZero (initSys luckZero [] "" ⟨0, 0, 0, 0⟩)
      1 2 ⟨0, 0, 0, 0⟩
      [((1, 2), ⟨0, 0, 0, 0⟩), ((3, 4), ⟨0, 0, 0, 0⟩)]).2 rfl⟩

/-! ## C8: clicks decide on the freshly resolved cell state -/

theorem lookup_map_self {α β : Type} [BEq α] [LawfulBEq α]
    (f : α → β) (l : List α) (k : α) (v : β)
    (h : (l.map fun c => (c, f c)).lookup k = some v) : v = f k := by
  induction l with
  | nil => simp [List.lookup] at h
  | cons c rest ih =>
      rw [List.map_cons, List.lookup] at h
      cases hb : (k == c) with
      | true =>
          rw [hb] at h
          simp only [Option.some.injEq] at h
          rw [← h, eq_of_beq hb]
      | false =>
          rw [hb] at h
          exact ih h

theorem lookup_renderGrid (luck : String → ℚ) (ov : Overrides) (b : Bounds)
    (i j : ℤ) (val : Option ℤ)
    (h : (renderGrid luck ov b).lookup (i, j) = some val) :
    val = readCell luck ov i j := by
  unfold renderGrid at h
  exact lookup_map_self (fun c => readCell luck ov c.1 c.2) (coordsIn b)
    (i, j) val h

/-- The rendered snapshot is fresh: every value a rendered rectangle's
click closure captured agrees with resolving that cell now. -/
def FreshRendered (luck : String → ℚ) (s : Sys) : Prop :=
  ∀ i j val, s.rendered.lookup (i, j) = some val →
    val = readCell luck s.game.overrides i j

theorem onCellClick_tooFar_eq (i j : ℤ) (val : Option ℤ) (s : GameState)
    (h : (onCellClick i j val s).2.outcome = Outcome.rejectedTooFar) :
    (onCellClick i j val s).1 = s := by
  by_cases hfar : distanceFromPlayer s i j > INTERACTION_RADIUS
  · simp [onCellClick, hfar]
  · exfalso
    cases hh : s.holding with
    | none =>
        cases val with
        | none => simp [onCellClick, hfar, hh] at h
        | some v =>
            by_cases hv : v = 0
            · simp [onCellClick, hfar, hh, hv] at h
            · simp [onCellClick, hfar, hh, hv] at h
    | some hv =>
        by_cases he : val = some hv
        · simp [onCellClick, hfar, he, hh] at h
        · simp [onCellClick, hfar, he, hh] at h

theorem freshRendered_step (luck : String → ℚ) (s : Sys) (e : Ev)
    (h : FreshRendered luck s) : FreshRendered luck (step luck s e) := by
  cases e with
  | move dLat dLng b =>
      cases hm : s.mode <;>
        · intro i j val hlv
          simp only [step, hm] at hlv ⊢
          exact lookup_renderGrid _ _ _ _ _ _ hlv
  | toggle b =>
      intro i j val hlv
      cases hm : s.mode <;>
        · simp only [step, hm] at hlv ⊢
          exact lookup_renderGrid _ _ _ _ _ _ hlv
  | moveEnd b =>
      cases hm : s.mode with
      | player =>
          intro i j val hlv
          simp only [step, hm] at hlv ⊢
          exact h i j val hlv
      | map =>
          intro i j val hlv
          simp only [step, hm] at hlv ⊢
          exact lookup_renderGrid _ _ _ _ _ _ hlv
  | click ci cj b =>
      cases hren : s.rendered.lookup (ci, cj) with
      | none =>
          have hstep : step luck s (Ev.click ci cj b) = s := by
            simp [step, hren]
          rw [hstep]
          exact h
      | some cval =>
          by_cases hout :
              (onCellClick ci cj cval s.game).2.outcome =
                Outcome.rejectedTooFar
          · have hgame : (onCellClick ci cj cval s.game).1 = s.game :=
              onCellClick_tooFar_eq ci cj cval s.game hout
            have hstep : step luck s (Ev.click ci cj b) = s := by
              simp [step, hren, hout, hgame]
            rw [hstep]
            exact h
          · have hstep : step luck s (Ev.click ci cj b) =
                { s with game := (onCellClick ci cj cval s.game).1,
                         rendered := renderGrid luck
                           (onCellClick ci cj cval s.game).1.overrides b } := by
              simp [step, hren, hout]
            rw [hstep]
            intro i' j' v' hlv
            exact lookup_renderGrid _ _ _ _ _ _ hlv

/-- C8.  In every state reachable from startup by renders, moves,
toggles and clicks, the cell value a click handler was invoked with —
captured when the cell was last rendered — coincides with freshly
resolving the clicked cell at click time, so the interaction engine's
outcome and writes are exactly those of a fresh resolution. -/
theorem click_decision_fresh (luck : String → ℚ) (ov0 : Overrides)
    (blob0 : String) (b0 : Bounds) (evs : List Ev) (i j : ℤ)
    (val : Option ℤ)
    (hlv : (runEvents luck (initSys luck ov0 blob0 b0) evs).rendered.lookup
        (i, j) = some val) :
    val = readCell luck
        (runEvents luck (initSys luck ov0 blob0 b0) evs).game.overrides i j
    ∧ onCellClick i j val
        (runEvents luck (initSys luck ov0 blob0 b0) evs).game =
      onCellClick i j
        (readCell luck
          (runEvents luck (initSys luck ov0 blob0 b0) evs).game.overrides
          i j)
        (runEvents luck (initSys luck ov0 blob0 b0) evs).game := by
  have hinit : FreshRendered luck (initSys luck ov0 blob0 b0) := by
    intro i' j' v' hlv'
    exact lookup_renderGrid _ _ _ _ _ _ hlv'
  have main : ∀ (l : List Ev) (t : Sys), FreshRendered luck t →
      FreshRendered luck (runEvents luck t l) := by
    intro l
    induction l with
    | nil => intro t ht; exact ht
    | cons e rest ih =>
        intro t ht
        exact ih _ (freshRendered_step luck t e ht)
  have hfresh := main evs _ hinit i j val hlv
  exact ⟨hfresh, by rw [← hfresh]⟩

/-- Concrete instantiation of `click_decision_fresh`: at startup with a
single rendered cell, the captured value for cell `(0,0)` is the level-1
token fresh resolution also reports. -/
theorem click_decision_fresh_example :
    some 1 = readCell luckZero
        (runEvents luckZero (initSys luckZero [] "" ⟨0, 0, 0, 0⟩)
          []).game.overrides 0 0
    ∧ onCellClick 0 0 (some 1)
        (runEvents luckZero (initSys luckZero [] "" ⟨0, 0, 0, 0⟩) []).game =
      onCellClick 0 0
        (readCell luckZero
          (runEvents luckZero (initSys luckZero [] "" ⟨0, 0, 0, 0⟩)
            []).game.overrides 0 0)
        (runEvents luckZero (initSys luckZero [] "" ⟨0, 0, 0, 0⟩) []).game :=
  click_decision_fresh luckZero [] "" ⟨0, 0, 0, 0⟩ [] 0 0 (some 1)
    (by decide)

/-! ## C4: the win signal -/

/-- A draw function whose value draw is `3/4` (selecting level `8`) and
whose spawn draw is `0` (always spawn): every cell generates an `8`.
Both draws lie in `[0,1)` as the spec requires of `luck`. -/
def luckEight : String → ℚ := fun s =>
  if s.data.reverse.take 5 = ['e', 'u', 'l', 'a', 'v'] then 3 / 4 else 0

/-- Clicks that merge the `2 ^ m` level-8 tokens of row `a`, columns
`b` to `b + 2 ^ m - 1`, into a single token of value `8 * 2 ^ m` at
`(a, b)`: merge each half, then pick the right half's token up and
craft it onto the left half's. -/
def mergeSpan : ℕ → ℤ → ℤ → List (ℤ × ℤ)
  | 0, _, _ => []
  | m + 1, a, b =>
      mergeSpan m a b ++ mergeSpan m a (b + 2 ^ m) ++
        [(a, b + 2 ^ m), (a, b)]

/-- A 124-click run from the startup state under `luckEight`: rows 0-3
(columns 0-7, all within the interaction radius) merge into a 256 at
`(0,0)`, then rows 4-7 merge into a second 256 at `(4,0)`. -/
def winClicks : List (ℤ × ℤ) :=
  mergeSpan 3 0 0 ++ mergeSpan 3 1 0 ++ mergeSpan 3 2 0 ++ mergeSpan 3 3 0 ++
    [(1, 0), (0, 0), (3, 0), (2, 0), (2, 0), (0, 0)] ++
    mergeSpan 3 4 0 ++ mergeSpan 3 5 0 ++ mergeSpan 3 6 0 ++ mergeSpan 3 7 0 ++
    [(5, 0), (4, 0), (7, 0), (6, 0), (6, 0), (4, 0)]

set_option maxRecDepth 4000

/-- C4 fails as stated: the code fires the win alert at EVERY craft
whose result reaches `TARGET_VALUE` (`main.ts` line 196 has no
only-once latch), and a second threshold craft is reachable.  Running
the concrete `winClicks` sequence from the startup state crafts 256
twice, and the `Won` signal is counted twice, not exactly once. -/
theorem won_twice_counterexample :
    (runClicks luckEight gs0 winClicks).2 = 2 := by decide

/-- C4 (amended).  A click emits the `Won` side-signal exactly when it
is an in-range craft whose new value `2*h` reaches or exceeds
`TARGET_VALUE` — hence at the first craft crossing the threshold, but
also at every later craft whose result is at or above the target (the
signal is not latched to fire only once). -/
theorem won_signal_iff (i j : ℤ) (val : Option ℤ) (s : GameState) :
    (onCellClick i j val s).2.won = true ↔
      distanceFromPlayer s i j ≤ INTERACTION_RADIUS
      ∧ ∃ h, s.holding = some h ∧ val = some h ∧ TARGET_VALUE ≤ 2 * h := by
  by_cases hfar : distanceFromPlayer s i j > INTERACTION_RADIUS
  · simp only [onCellClick, if_pos hfar]
    constructor
    · intro hw
      exact absurd hw (by simp)
    · rintro ⟨hle, -⟩
      omega
  · cases hh : s.holding with
    | none =>
        have hfalse : (onCellClick i j val s).2.won = false := by
          cases val with
          | none => simp [onCellClick, hfar, hh]
          | some v =>
              by_cases hv : v = 0
              · simp [onCellClick, hfar, hh, hv]
              · simp [onCellClick, hfar, hh, hv]
        rw [hfalse]
        constructor
        · intro hw
          cases hw
        · rintro ⟨-, h', hh', -⟩
          cases hh'
    | some hv =>
        by_cases he : val = some hv
        · subst he
          simp only [onCellClick, if_neg hfar, hh, if_pos rfl]
          constructor
          · intro hw
            have hge := of_decide_eq_true hw
            exact ⟨by omega, hv, rfl, rfl, by omega⟩
          · rintro ⟨-, h', hh', hv', hge⟩
            obtain rfl := Option.some.inj hv'
            exact decide_eq_true (by omega)
        · have hfalse : (onCellClick i j val s).2.won = false := by
            simp [onCellClick, hfar, hh, he]
          rw [hfalse]
          constructor
          · intro hw
            cases hw
          · rintro ⟨-, h', hh', hval, -⟩
            obtain rfl := Option.some.inj hh'
            exact absurd hval he

/-! ## C10: persistence round-trip.  Digit-level lemmas first. -/

theorem digitChar_isDigit (n : ℕ) : (digitChar n).isDigit = true := by
  unfold digitChar
  split <;> decide

theorem digitChar_val : ∀ n : ℕ, n < 10 → (digitChar n).toNat - 48 = n := by
  decide

theorem isDigit_ne_quote {c : Char} (h : c.isDigit = true) : c ≠ '"' := by
  intro hc
  subst hc
  exact absurd h (by decide)

theorem isDigit_ne_n {c : Char} (h : c.isDigit = true) : c ≠ 'n' := by
  intro hc
  subst hc
  exact absurd h (by decide)

theorem isDigit_ne_minus {c : Char} (h : c.isDigit = true) : c ≠ '-' := by
  intro hc
  subst hc
  exact absurd h (by decide)

theorem natDigitsAux_acc : ∀ (f n : ℕ) (acc : List Char),
    natDigitsAux f n acc = natDigitsAux f n [] ++ acc := by
  intro f
  induction f with
  | zero =>
      intro n acc
      simp [natDigitsAux]
  | succ f ih =>
      intro n acc
      by_cases h : n < 10
      · simp [natDigitsAux, h]
      · rw [natDigitsAux, if_neg h, natDigitsAux, if_neg h,
          ih (n / 10) (digitChar (n % 10) :: acc),
          ih (n / 10) [digitChar (n % 10)]]
        simp

theorem natDigitsAux_irrel : ∀ (n f₁ f₂ : ℕ), n ≤ f₁ → n ≤ f₂ →
    natDigitsAux f₁ n [] = natDigitsAux f₂ n [] := by
  intro n
  induction n using Nat.strong_induction_on with
  | _ n ih =>
      intro f₁ f₂ h₁ h₂
      by_cases hn : n < 10
      · cases f₁ <;> cases f₂ <;> simp [natDigitsAux, hn]
      · have h10 : 10 ≤ n := by omega
        obtain ⟨g₁, rfl⟩ : ∃ g, f₁ = g + 1 := ⟨f₁ - 1, by omega⟩
        obtain ⟨g₂, rfl⟩ : ∃ g, f₂ = g + 1 := ⟨f₂ - 1, by omega⟩
        have hdiv : n / 10 < n := Nat.div_lt_self (by omega) (by omega)
        rw [natDigitsAux, if_neg hn, natDigitsAux, if_neg hn,
          natDigitsAux_acc g₁, natDigitsAux_acc g₂,
          ih (n / 10) hdiv g₁ g₂ (by omega) (by omega)]

theorem natDigits_eq (n : ℕ) : natDigits n =
    if n < 10 then [digitChar n]
    else natDigits (n / 10) ++ [digitChar (n % 10)] := by
  by_cases hn : n < 10
  · rw [if_pos hn]
    unfold natDigits
    cases n <;> simp [natDigitsAux, hn]
  · rw [if_neg hn]
    have h10 : 10 ≤ n := by omega
    obtain ⟨m, rfl⟩ : ∃ m, n = m + 1 := ⟨n - 1, by omega⟩
    unfold natDigits
    rw [natDigitsAux, if_neg hn, natDigitsAux_acc,
      natDigitsAux_irrel ((m + 1) / 10) m ((m + 1) / 10)
        (by omega) (le_refl _)]

theorem natDigits_isDigit : ∀ (n : ℕ) (c : Char), c ∈ natDigits n →
    c.isDigit = true := by
  intro n
  induction n using Nat.strong_induction_on with
  | _ n ih =>
      intro c hc
      rw [natDigits_eq] at hc
      by_cases hn : n < 10
      · rw [if_pos hn] at hc
        simp only [List.mem_singleton] at hc
        rw [hc]
        exact digitChar_isDigit n
      · rw [if_neg hn] at hc
        rcases List.mem_append.mp hc with h | h
        · exact ih (n / 10) (Nat.div_lt_self (by omega) (by omega)) c h
        · simp only [List.mem_singleton] at h
          rw [h]
          exact digitChar_isDigit _

theorem natDigits_ne_nil (n : ℕ) : natDigits n ≠ [] := by
  rw [natDigits_eq]
  by_cases hn : n < 10
  · simp [hn]
  · simp [hn]

theorem digitsVal_append (l : List Char) (c : Char) :
    digitsVal (l ++ [c]) = digitsVal l * 10 + (c.toNat - 48) := by
  unfold digitsVal
  rw [List.foldl_append]
  rfl

theorem digitsVal_natDigits : ∀ n : ℕ, digitsVal (natDigits n) = n := by
  intro n
  induction n using Nat.strong_induction_on with
  | _ n ih =>
      rw [natDigits_eq]
      by_cases hn : n < 10
      · rw [if_pos hn]
        have := digitChar_val n hn
        simp only [digitsVal, List.foldl_cons, List.foldl_nil]
        omega
      · rw [if_neg hn, digitsVal_append,
          ih (n / 10) (Nat.div_lt_self (by omega) (by omega)),
          digitChar_val (n % 10) (Nat.mod_lt _ (by omega))]
        omega

theorem intChars_chars (z : ℤ) (c : Char) (hc : c ∈ intChars z) :
    c.isDigit = true ∨ c = '-' := by
  unfold intChars at hc
  by_cases hz : z < 0
  · rw [if_pos hz] at hc
    rcases List.mem_cons.mp hc with h | h
    · exact Or.inr h
    · exact Or.inl (natDigits_isDigit _ c h)
  · rw [if_neg hz] at hc
    exact Or.inl (natDigits_isDigit _ c hc)

theorem takeWhile_append_stop (p : Char → Bool) (l : List Char) (c : Char)
    (r : List Char) (hl : ∀ x ∈ l, p x = true) (hc : p c = false) :
    (l ++ c :: r).takeWhile p = l ∧ (l ++ c :: r).dropWhile p = c :: r := by
  induction l with
  | nil =>
      constructor <;> simp [List.takeWhile_cons, List.dropWhile_cons, hc]
  | cons a l ih =>
      have ha : p a = true := hl a (List.mem_cons_self a l)
      have ihr := ih fun x hx => hl x (List.mem_cons_of_mem a hx)
      constructor
      · simp [List.takeWhile_cons, ha, ihr.1]
      · simp [List.dropWhile_cons, ha, ihr.2]

theorem parseVal_null (rest : List Char) :
    parseVal ("null".data ++ rest) = some (none, rest) := rfl

theorem parseVal_int (z : ℤ) (c : Char) (rest : List Char)
    (hc : c.isDigit = false) :
    parseVal (intChars z ++ c :: rest) = some (some z, c :: rest) := by
  by_cases hz : z < 0
  · rw [intChars, if_pos hz]
    have htake := takeWhile_append_stop Char.isDigit (natDigits (-z).toNat)
      c rest (fun x hx => natDigits_isDigit _ x hx) hc
    have hne := natDigits_ne_nil (-z).toNat
    rw [List.cons_append, parseVal,
      if_neg (show ('-' : Char) ≠ 'n' by decide), if_pos rfl]
    simp only [htake.1, htake.2]
    rw [if_neg (by simpa using hne)]
    rw [digitsVal_natDigits]
    rw [Int.toNat_of_nonneg (by omega : (0 : ℤ) ≤ -z)]
    simp
  · rw [intChars, if_neg hz]
    have htake := takeWhile_append_stop Char.isDigit (natDigits z.toNat)
      c rest (fun x hx => natDigits_isDigit _ x hx) hc
    have hne := natDigits_ne_nil z.toNat
    obtain ⟨d, ds, hds⟩ := List.exists_cons_of_ne_nil hne
    have hd : d.isDigit = true :=
      natDigits_isDigit z.toNat d (by rw [hds]; exact List.mem_cons_self _ _)
    rw [hds] at htake ⊢
    rw [List.cons_append, parseVal, if_neg (isDigit_ne_n hd),
      if_neg (isDigit_ne_minus hd)]
    simp only [List.cons_append] at htake
    simp only [htake.1, htake.2]
    rw [if_neg (by simp)]
    rw [← hds, digitsVal_natDigits,
      Int.toNat_of_nonneg (by omega : (0 : ℤ) ≤ z)]

theorem parseVal_valChars (v : Option ℤ) (c : Char) (rest : List Char)
    (hc : c.isDigit = false) :
    parseVal (valChars v ++ c :: rest) = some (v, c :: rest) := by
  cases v with
  | none => exact parseVal_null (c :: rest)
  | some z => exact parseVal_int z c rest hc

theorem parseEntry_encode (k : String) (v : Option ℤ) (c : Char)
    (rest : List Char) (hk : ∀ x ∈ k.data, x ≠ '"')
    (hc : c.isDigit = false) :
    parseEntry (entryChars (k, v) ++ c :: rest) = some ((k, v), c :: rest) := by
  obtain ⟨kd⟩ := k
  have htake := takeWhile_append_stop notQuote kd '"'
    (':' :: (valChars v ++ c :: rest))
    (fun x hx => decide_eq_true (hk x hx)) (by decide)
  simp only [entryChars, List.cons_append, List.append_assoc]
  rw [parseEntry, if_pos rfl]
  simp only [List.cons_append] at htake
  simp only [htake.1, htake.2, List.take, List.drop]
  rw [if_pos trivial, parseVal_valChars v c rest hc]
  rfl

theorem entriesChars_length (ov : Overrides) :
    ov.length ≤ (entriesChars ov).length := by
  induction ov with
  | nil => simp [entriesChars]
  | cons e rest ih =>
      cases rest with
      | nil =>
          show 1 ≤ (entryChars e).length
          simp [entryChars]
      | cons f rs =>
          have : entriesChars (e :: f :: rs) =
              entryChars e ++ ',' :: entriesChars (f :: rs) := rfl
          rw [this]
          simp only [List.length_append, List.length_cons]
          have hel : 1 ≤ (entryChars e).length := by
            simp [entryChars]
          simp only [List.length_cons] at ih ⊢
          omega

theorem entryChars_head (e : String × Option ℤ) (r : List Char) :
    entryChars e ++ r =
      '"' :: (e.1.data ++ '"' :: ':' :: (valChars e.2 ++ r)) := by
  simp [entryChars]

theorem parseEntries_encode : ∀ (ov : Overrides) (fuel : ℕ),
    ov.length + 1 ≤ fuel →
    (∀ p ∈ ov, ∀ x ∈ p.1.data, x ≠ '"') →
    parseEntries fuel (entriesChars ov ++ ['\x7d']) = some ov := by
  intro ov
  induction ov with
  | nil =>
      intro fuel hf _
      obtain ⟨g, rfl⟩ : ∃ g, fuel = g + 1 := ⟨fuel - 1, by omega⟩
      simp [entriesChars, parseEntries]
  | cons e rest ih =>
      intro fuel hf hk
      obtain ⟨g, rfl⟩ : ∃ g, fuel = g + 1 := ⟨fuel - 1, by omega⟩
      have hke : ∀ x ∈ e.1.data, x ≠ '"' :=
        hk e (List.mem_cons_self _ _)
      cases rest with
      | nil =>
          have hcs : entriesChars [e] ++ ['\x7d'] =
              entryChars (e.1, e.2) ++ '\x7d' :: [] := rfl
          rw [parseEntries, hcs,
            parseEntry_encode e.1 e.2 '\x7d' [] hke (by decide)]
          rw [if_neg (by
            rw [entryChars_head]
            intro hbad
            injection hbad with h1 h2
            exact absurd h1 (by decide))]
          simp
      | cons f rs =>
          have hcs : entriesChars (e :: f :: rs) ++ ['\x7d'] =
              entryChars (e.1, e.2) ++
                ',' :: (entriesChars (f :: rs) ++ ['\x7d']) := by
            simp [entriesChars, List.append_assoc]
          rw [parseEntries, hcs,
            parseEntry_encode e.1 e.2 ',' (entriesChars (f :: rs) ++ ['\x7d'])
              hke (by decide)]
          rw [if_neg (by
            rw [entryChars_head]
            intro hbad
            injection hbad with h1 h2
            exact absurd h1 (by decide))]
          simp only [Option.some_bind]
          rw [if_neg (by simp)]
          rw [if_pos (by simp)]
          simp only [List.tail_cons]
          rw [ih g (by simp only [List.length_cons] at hf ⊢; omega)
            (fun p hp => hk p (List.mem_cons_of_mem _ hp))]
          rfl

theorem cellId_chars (i j : ℤ) (c : Char) (hc : c ∈ (cellId i j).data) :
    c ≠ '"' := by
  have hdata : (cellId i j).data = intChars i ++ ',' :: intChars j := rfl
  rw [hdata] at hc
  rcases List.mem_append.mp hc with h | h
  · rcases intChars_chars i c h with hd | hm
    · exact isDigit_ne_quote hd
    · rw [hm]
      decide
  · rcases List.mem_cons.mp h with h | h
    · rw [h]
      decide
    · rcases intChars_chars j c h with hd | hm
      · exact isDigit_ne_quote hd
      · rw [hm]
        decide

/-- C10.  Serializing an override store whose keys are cell-id strings
to the persistent blob and deserializing the blob reproduces the exact
same mapping: every coordinate key maps to the same entry, an `Empty`
(`null`) override comes back as an `Empty` override distinct from an
absent entry, and no entries appear or disappear. -/
theorem overrides_roundtrip (m : Overrides)
    (hk : ∀ p ∈ m, ∃ i j, p.1 = cellId i j) :
    parseOverrides (stringifyOverrides m) = some m := by
  have hkq : ∀ p ∈ m, ∀ x ∈ p.1.data, x ≠ '"' := by
    intro p hp x hx
    obtain ⟨i, j, hij⟩ := hk p hp
    rw [hij] at hx
    exact cellId_chars i j x hx
  have hdata : (stringifyOverrides m).data =
      '\x7b' :: (entriesChars m ++ ['\x7d']) := by
    simp [stringifyOverrides]
  rw [parseOverrides, hdata]
  rw [if_pos (by simp)]
  simp only [List.tail_cons]
  exact parseEntries_encode m _
    (by
      have h1 := entriesChars_length m
      simp only [List.length_append, List.length_cons, List.length_nil]
      omega)
    hkq

/-- Concrete instantiation of `overrides_roundtrip`: a store holding an
explicit `Empty` at `(0,0)` and a `44` at `(-3,12)` survives the
serialize-deserialize round trip unchanged. -/
theorem overrides_roundtrip_example :
    parseOverrides (stringifyOverrides
      [(cellId 0 0, none), (cellId (-3) 12, some 44)]) =
    some [(cellId 0 0, none), (cellId (-3) 12, some 44)] :=
  overrides_roundtrip [(cellId 0 0, none), (cellId (-3) 12, some 44)]
    (by
      intro p hp
      simp only [List.mem_cons, List.not_mem_nil, or_false] at hp
      rcases hp with rfl | rfl
      · exact ⟨0, 0, rfl⟩
      · exact ⟨-3, 12, rfl⟩)

end WorldOfBits
